import Mathlib

/-!
Verification development for the noti-bot per-record notification scheduler.

Shallow embedding of the scheduler core:
* `bot/scheduler/task.py` — `NotificationTask.run` (catch-up loop, live loop,
  loop control) and `NotificationTask._dispatch` (deliver/skip paths);
* `bot/commands/list.py` — `compute_next_run` and its local `interval_to_delta`;
* `bot/utils.py` — `parse_interval` and `validate_interval`.

Timestamps and durations are modelled as `Int` seconds (UTC); a Python
`datetime` is its POSIX second count and a `timedelta` its total seconds.
Delivery, channel resolution and database writes are externals: channel
resolution and send success enter as boolean inputs, and the per-record
database row (the mutable fields `last_triggered`, `max_occurrences`, plus a
deletion flag) is threaded explicitly as state.

Timing idealisations, stated once here: the catch-up loop runs with the single
`now` captured at the top of `run` (the source re-reads the clock inside
`_dispatch`; the loop body performs no waiting); each live-loop occurrence with
scheduled time `t` is dispatched at clock time `clock t`, where `clock` is an
arbitrary function satisfying the wait guarantee `t ≤ clock t` where needed.
Log messages, the pre-fetch lookups (which have no effect on record state) and
the `run_count` counter are omitted.
-/

/-! ### Dispatch (`NotificationTask._dispatch`) -/

/-- The mutable per-record database fields touched by the dispatch path
(`last_triggered`, `max_occurrences`) plus whether the row has been deleted.
All other record fields are immutable and never written by dispatch. -/
structure DispatchState where
  last_triggered : Option Int
  max_occurrences : Option Int
  deleted : Bool
deriving DecidableEq, Repr

/-- Result of one `_dispatch(when)` call: the updated record state and the
number of `channel.send` delivery attempts made (0 or 1). -/
structure DispatchResult where
  state : DispatchState
  send_attempts : Nat
deriving DecidableEq, Repr

/-- `NotificationTask._dispatch(when)` (task.py lines 165–286).
`channel_ok` models `bot.get_channel` returning a channel (early return when
not); `send_ok` models whether the single `channel.send` attempt succeeds (the
exception is caught, so the outcome does not affect state); `W` is the
`DELIVER_LATE` window. Before the deadline `when + W`: one send attempt, then
`last_triggered := when`. At or after the deadline: no send, `last_triggered
:= when`, `max_occurrences` (if set) decremented and, when the decremented
value is ≤ 0, the record row is deleted. -/
def dispatchStep (channel_ok send_ok : Bool) (W when now : Int)
    (st : DispatchState) : DispatchResult :=
  if !channel_ok then ⟨st, 0⟩
  else if now < when + W then
    ⟨⟨some when, st.max_occurrences, st.deleted⟩, 1⟩
  else
    let m := Option.map (fun v => v - 1) st.max_occurrences
    let del := match m with
      | some v => st.deleted || decide (v ≤ 0)
      | none => st.deleted
    ⟨⟨some when, m, del⟩, 0⟩

/-! ### Catch-up (`NotificationTask.run`, lines 78–91) -/

/-- The sequence of occurrence times dispatched by the catch-up `while` loop
(task.py lines 80–91): starting from `last := base`, repeat
`next := last + d` and dispatch `next` while `next ≤ now` and
`now - next ≤ w` both hold, stopping at the first violation.
The source loop is reached only when the record's interval is a truthy
(validated, positive) timedelta; the `0 < d` guard makes the recursion
well-founded and is the only case the source exercises. -/
def catchupTimes (base d now w : Int) : List Int :=
  if _h : 0 < d ∧ base + d ≤ now ∧ now - (base + d) ≤ w then
    (base + d) :: catchupTimes (base + d) d now w
  else []
termination_by (now - base).toNat
decreasing_by omega

/-- Specification-side definition, following the spec's words for
`missedOccurrences(base, interval, now, lateWindow)` (§4.2): "produces, in
ascending order, every occurrence time `t = base + k×interval` (k=1,2,…)
satisfying `t ≤ now` and `(now − t) ≤ lateWindow`; finite, terminates once `t`
exceeds `now`". Written for comparison against `catchupTimes`, which is the
code-side loop. -/
def specMissedOccurrences (base d now w : Int) : List Int :=
  if _h : 0 < d ∧ base + d ≤ now then
    (if now - (base + d) ≤ w then [base + d] else []) ++
      specMissedOccurrences (base + d) d now w
  else []
termination_by (now - base).toNat
decreasing_by omega

/-! ### The per-record task (`NotificationTask.run`) -/

/-- The scheduling fields of a `NotificationConfig` (scheduler/config.py) as
`run` reads them. `last_triggered` is the value attached at load time
(manager.py lines 77–84); the source never refreshes this in-memory field
after `_dispatch` persists a new value to the database. -/
structure TaskConfig where
  is_repeating : Bool
  interval_delta : Option Int
  start_time : Int
  end_time : Option Int
  max_occurrences : Option Int
  last_triggered : Option Int
deriving DecidableEq, Repr

/-- Python truthiness of the optional `interval_delta` timedelta:
`None` and the zero timedelta are falsy. -/
def deltaTruthy : Option Int → Bool
  | none => false
  | some d => d != 0

/-- The record's mutable database fields as they stand when the task starts. -/
def initState (cfg : TaskConfig) : DispatchState :=
  ⟨cfg.last_triggered, cfg.max_occurrences, false⟩

/-- `last = last_triggered or start_time` (task.py line 79; a `datetime` is
always truthy, so the fallback fires exactly when `last_triggered` is None). -/
def catchupBase (cfg : TaskConfig) : Int :=
  cfg.last_triggered.getD cfg.start_time

/-- First live-loop `scheduled_time` (task.py lines 94–98): the in-memory
`last_triggered` plus one interval when the record is repeating with a truthy
interval and `last_triggered` is set, else `start_time`. -/
def schedStart (cfg : TaskConfig) : Int :=
  if cfg.last_triggered.isSome ∧ cfg.is_repeating ∧ deltaTruthy cfg.interval_delta then
    cfg.last_triggered.getD 0 + cfg.interval_delta.getD 0
  else cfg.start_time

/-- The catch-up phase dispatching each missed time in order (task.py lines
81–91); every dispatch uses the `now` captured at the top of `run`. Returns
the final record state and the trace of `(when, send_attempts)` per dispatch.
Exceptions inside a catch-up dispatch are caught per iteration in the source;
the model's dispatch does not fault. -/
def runCatchup (chOk sOk : Int → Bool) (W now : Int) :
    List Int → DispatchState → DispatchState × List (Int × Nat)
  | [], st => (st, [])
  | t :: ts, st =>
    let r := dispatchStep (chOk t) (sOk t) W t now st
    let (st', tr) := runCatchup chOk sOk W now ts r.state
    (st', (t, r.send_attempts) :: tr)

/-- Outcome of the live loop's stop-condition block (task.py lines 135–143). -/
inductive LoopDecision
  | halt
  | failed
  | next (t : Int)
deriving DecidableEq, Repr

/-- Stop conditions after a live-loop dispatch (task.py lines 135–143), with
`curMax` the CURRENT in-memory `max_occurrences` (it may have been decremented
by a skip path) and `count` the number of live-loop occurrences so far.
Python truthiness: the `max_occurrences` test is skipped when the value is
None or exactly 0. For a repeating record with `interval_delta = None`, line
140 raises a `TypeError` (caught at the `run` boundary, `failed`): the record
is then not deleted. -/
def loopControl (cfg : TaskConfig) (curMax : Option Int) (count : Nat)
    (sched : Int) : LoopDecision :=
  if cfg.is_repeating = false then .halt
  else if (match curMax with
           | some m => m != 0 && decide ((count : Int) ≥ m)
           | none => false) then .halt
  else match cfg.interval_delta with
    | none => .failed
    | some d =>
      let nt := sched + d
      match cfg.end_time with
      | some e => if nt > e then .halt else .next nt
      | none => .next nt

/-- How the `while True` loop of `run` ended: `completed` means it exited by
`break` (so line 146 `delete_record` runs); `crashed` means the exception path
(no record deletion). -/
inductive RunEnd
  | completed
  | crashed
deriving DecidableEq, Repr

/-- The live loop (task.py lines 100–143): for successive scheduled times,
wait (modelled by dispatching at `clock sched`), call `_dispatch`, then apply
the stop conditions. `fuel` bounds the number of iterations the model unrolls;
`none` means the bound was hit (the source loop is unbounded). -/
def liveLoop (cfg : TaskConfig) (chOk sOk : Int → Bool) (clock : Int → Int)
    (W : Int) : Nat → Int → Nat → DispatchState →
    Option (DispatchState × List (Int × Nat) × RunEnd)
  | 0, _, _, _ => none
  | fuel + 1, sched, count, st =>
    let r := dispatchStep (chOk sched) (sOk sched) W sched (clock sched) st
    let count' := count + 1
    match loopControl cfg r.state.max_occurrences count' sched with
    | .halt => some (r.state, [(sched, r.send_attempts)], .completed)
    | .failed => some (r.state, [(sched, r.send_attempts)], .crashed)
    | .next nt =>
      match liveLoop cfg chOk sOk clock W fuel nt count' r.state with
      | none => none
      | some (st'', tr, e) => some (st'', (sched, r.send_attempts) :: tr, e)

/-- `NotificationTask.run` (task.py lines 40–151): catch-up phase (when the
record is repeating with a truthy interval), then the live loop starting from
`schedStart`, then `delete_record` when the loop exited by `break`. `now0` is
the clock value captured at line 76; the `next_sched` computed at lines 56–70
is only logged and does not affect behaviour. Returns the final record state,
the full dispatch trace `(when, send_attempts)`, and how the loop ended. -/
def runModel (fuel : Nat) (cfg : TaskConfig) (chOk sOk : Int → Bool)
    (clock : Int → Int) (now0 W : Int) :
    Option (DispatchState × List (Int × Nat) × RunEnd) :=
  let p :=
    if cfg.is_repeating ∧ deltaTruthy cfg.interval_delta then
      runCatchup chOk sOk W now0
        (catchupTimes (catchupBase cfg) (cfg.interval_delta.getD 0) now0 W)
        (initState cfg)
    else (initState cfg, [])
  match liveLoop cfg chOk sOk clock W fuel (schedStart cfg) 0 p.1 with
  | none => none
  | some (st2, tr2, e) =>
    let st3 := match e with
      | .completed => { st2 with deleted := true }
      | .crashed => st2
    some (st3, p.2 ++ tr2, e)

/-! ### Interval parsing (`bot/utils.py`) -/

/-- ASCII decimal digit, the `\d` of the pattern restricted to ASCII (the
model does not cover non-ASCII Unicode digits). -/
def isAsciiDigit (c : Char) : Bool :=
  48 ≤ c.toNat && c.toNat ≤ 57

/-- Python `\s` on ASCII: space, tab, newline, carriage return, vertical tab,
form feed (Unicode spaces out of scope of the model). -/
def isPySpace (c : Char) : Bool :=
  c.toNat = 32 || c.toNat = 9 || c.toNat = 10 ||
  c.toNat = 13 || c.toNat = 11 || c.toNat = 12

/-- ASCII lower-casing, as `re.IGNORECASE` and `str.lower` act on the
characters concerned here. -/
def pyLower (c : Char) : Char :=
  if 65 ≤ c.toNat ∧ c.toNat ≤ 90 then Char.ofNat (c.toNat + 32) else c

/-- Value of `int(group(1))` on a run of ASCII digits. -/
def digitsVal (ds : List Char) : Nat :=
  ds.foldl (fun a c => a * 10 + (c.toNat - 48)) 0

/-- The capture class `[smhdw]` of the pattern (lower-cased). -/
def unitLetters : List Char := ['s', 'm', 'h', 'd', 'w']

/-- The strings matched by `(?:ec(?:ond)?|in(?:ute)?|our|ay|(?:ee)?k)?s?`,
i.e. everything the pattern allows after the unit letter (lower-cased):
the optional suffix alternatives, each with or without a trailing `s`.
Note the alternatives are NOT tied to the unit letter that precedes them. -/
def unitSuffixes : List (List Char) :=
  [[], ['s'],
   ['e', 'c'], ['e', 'c', 's'],
   ['e', 'c', 'o', 'n', 'd'], ['e', 'c', 'o', 'n', 'd', 's'],
   ['i', 'n'], ['i', 'n', 's'],
   ['i', 'n', 'u', 't', 'e'], ['i', 'n', 'u', 't', 'e', 's'],
   ['o', 'u', 'r'], ['o', 'u', 'r', 's'],
   ['a', 'y'], ['a', 'y', 's'],
   ['e', 'e', 'k'], ['e', 'e', 'k', 's'],
   ['k'], ['k', 's']]

/-- Everything the pattern allows between the unit letter and the end of the
input. Python's `$` (no `re.MULTILINE`) matches at the end of the string or
just before one newline at the end of the string, so each element of
`unitSuffixes` is also accepted when followed by a single final `'\n'`
(every other character of the input must be consumed by the pattern itself,
and no suffix contains a newline, so the two groups are disjoint). -/
def unitTails : List (List Char) :=
  unitSuffixes ++ unitSuffixes.map (fun t => t ++ ['\n'])

/-- `parse_interval` (utils.py lines 44–57): full match (`re.match` with the
pattern anchored by `$`) of
`^(\d+)\s*([smhdw])(?:ec(?:ond)?|in(?:ute)?|our|ay|(?:ee)?k)?s?$` with
`re.IGNORECASE`, returning `(int(value), unit.lower())` on a match and
`None` otherwise. The split into maximal digit and space runs is faithful
because the character classes are disjoint (`[smhdw]` and the suffixes contain
no digit and no space), so the regex admits exactly one decomposition; the
`$`-before-trailing-newline acceptance is folded into `unitTails`. -/
def parse_interval (s : List Char) : Option (Nat × Char) :=
  let ds := s.takeWhile isAsciiDigit
  if ds.isEmpty then none
  else
    match (s.dropWhile isAsciiDigit).dropWhile isPySpace with
    | [] => none
    | c :: rest =>
      if pyLower c ∈ unitLetters ∧ rest.map pyLower ∈ unitTails then
        some (digitsVal ds, pyLower c)
      else none

/-- Declarative form of the language accepted by the pattern of
`parse_interval`: a nonempty digit run, a (possibly empty) space run, a unit
letter, and a tail drawn from the suffix alternatives (optionally followed by
one trailing newline, per `$`), case-insensitively. -/
def regexLang (s : List Char) : Prop :=
  ∃ ds sp c tail, s = ds ++ (sp ++ c :: tail) ∧ ds ≠ [] ∧
    (∀ x ∈ ds, isAsciiDigit x = true) ∧ (∀ x ∈ sp, isPySpace x = true) ∧
    pyLower c ∈ unitLetters ∧ tail.map pyLower ∈ unitTails

/-- `validate_interval` (utils.py lines 60–78): positive, and at least the
per-unit minimum (1 for every unit, with default 1 for unknown units). -/
def validate_interval (value : Int) (unit : Char) : Bool :=
  if value ≤ 0 then false
  else value ≥ (match unit with
    | 's' => 1 | 'm' => 1 | 'h' => 1 | 'd' => 1 | 'w' => 1 | _ => 1)

/-! ### Next-run computation (`bot/commands/list.py`) -/

/-- Python `a or b` on optionals whose payload (`datetime`) is always truthy. -/
def pyOr (a b : Option Int) : Option Int :=
  match a with
  | some x => some x
  | none => b

/-- The local `interval_to_delta(val, unit)` of `list.py` (lines 38–47):
`None` when `val` is falsy (None or 0) or `unit` is falsy, else the timedelta
for the unit, `None` for an unrecognised unit. -/
def interval_to_delta (val : Option Int) (unit : Option Char) : Option Int :=
  match val, unit with
  | some v, some u =>
    if v = 0 then none
    else match u with
      | 's' => some v
      | 'm' => some (60 * v)
      | 'h' => some (3600 * v)
      | 'd' => some (86400 * v)
      | 'w' => some (604800 * v)
      | _ => none
  | _, _ => none

/-- `compute_next_run` (list.py lines 49–78). Non-repeating: `None` once
`last_triggered` is set, else `start_time` when it is not yet past. Repeating:
with `base = last_triggered or start_time`, `base` itself when `now ≤ base`,
else `base + (missed + 1) * delta` with `missed = (now - base) // delta`
(Python floor division, `Int.fdiv`); finally `None` when an `end_time` is set
and the candidate exceeds it. -/
def compute_next_run (start_time : Option Int) (is_repeating : Bool)
    (iv_val : Option Int) (iv_unit : Option Char) (end_time : Option Int)
    (last_triggered : Option Int) (now : Int) : Option Int :=
  if is_repeating = false then
    match last_triggered with
    | some _ => none
    | none =>
      match start_time with
      | some st => if st ≥ now then some st else none
      | none => none
  else
    match interval_to_delta iv_val iv_unit with
    | none => none
    | some delta =>
      match pyOr last_triggered start_time with
      | none => none
      | some base =>
        let nxt :=
          if now ≤ base then base
          else base + ((now - base).fdiv delta + 1) * delta
        match end_time with
        | some e => if nxt > e then none else some nxt
        | none => some nxt

/-! ### Helper lemmas -/

/-- A dispatch attempted before its deadline never changes `max_occurrences`
or the deletion flag (it either returns early on a missing channel or takes
the delivery branch). -/
theorem dispatch_early_preserves (ch sok : Bool) (W when now : Int)
    (st : DispatchState) (h : now < when + W) :
    (dispatchStep ch sok W when now st).state.max_occurrences =
      st.max_occurrences ∧
    (dispatchStep ch sok W when now st).state.deleted = st.deleted := by
  cases ch <;> simp [dispatchStep, h]

/-- When the first candidate occurrence is already beyond `now`, the catch-up
loop body never runs. -/
theorem catchupTimes_nil (base d now w : Int) (h : ¬ base + d ≤ now) :
    catchupTimes base d now w = [] := by
  rw [catchupTimes, dif_neg (fun hc => h hc.2.1)]

/-- When the first candidate occurrence `base + d` lies inside the late
window, so do all later candidates, and the catch-up loop agrees with the
spec's `missedOccurrences`. -/
theorem catchup_eq_spec_of_first_in_window :
    ∀ (k : Nat) (base d now w : Int), (now - base).toNat ≤ k → 0 < d →
      now - (base + d) ≤ w →
      catchupTimes base d now w = specMissedOccurrences base d now w := by
  intro k
  induction k with
  | zero =>
    intro base d now w hk hd hw
    rw [catchupTimes, specMissedOccurrences]
    rw [dif_neg (by omega), dif_neg (by omega)]
  | succ k ih =>
    intro base d now w hk hd hw
    by_cases hle : base + d ≤ now
    · rw [catchupTimes, specMissedOccurrences]
      rw [dif_pos ⟨hd, hle, hw⟩, dif_pos ⟨hd, hle⟩, if_pos hw]
      rw [ih (base + d) d now w (by omega) hd (by omega)]
      rfl
    · rw [catchupTimes, specMissedOccurrences]
      rw [dif_neg (fun hc => hle hc.2.1), dif_neg (fun hc => hle hc.2)]

/-- With every dispatch happening before its deadline (so `max_occurrences`
is never decremented), a live loop whose current occurrence budget `M` is not
yet reached halts by `break` within `M - count` further iterations. -/
theorem liveLoop_reaches_budget
    (cfg : TaskConfig) (chOk sOk : Int → Bool) (clock : Int → Int)
    (W d M : Int)
    (hrep : cfg.is_repeating = true) (hdelta : cfg.interval_delta = some d)
    (hM0 : M ≠ 0) (hclock : ∀ t, clock t < t + W) :
    ∀ (fuel count : Nat) (sched : Int) (st : DispatchState),
      st.max_occurrences = some M → (count : Int) < M →
      M - count ≤ (fuel : Int) →
      ∃ st' tr, liveLoop cfg chOk sOk clock W fuel sched count st =
          some (st', tr, .completed) ∧ (tr.length : Int) ≤ M - count := by
  intro fuel
  induction fuel with
  | zero =>
    intro count sched st hmax hcount hfuel
    exact absurd hfuel (by omega)
  | succ fuel ih =>
    intro count sched st hmax hcount hfuel
    have hpre := dispatch_early_preserves (chOk sched) (sOk sched) W sched
      (clock sched) st (hclock sched)
    have hmax' : (dispatchStep (chOk sched) (sOk sched) W sched (clock sched)
        st).state.max_occurrences = some M := by rw [hpre.1, hmax]
    have hnotfalse : ¬ (cfg.is_repeating = false) := by simp [hrep]
    simp only [liveLoop, hmax']
    by_cases hge : ((count + 1 : Nat) : Int) ≥ M
    · have hctl : loopControl cfg (some M) (count + 1) sched = .halt := by
        unfold loopControl
        rw [if_neg hnotfalse, if_pos (by simp [hM0]; omega)]
      simp only [hctl]
      exact ⟨_, _, rfl, by simp; omega⟩
    · have hcond : ¬ ((M != 0 && decide (((count + 1 : Nat) : Int) ≥ M))
          = true) := by simp; omega
      cases he : cfg.end_time with
      | none =>
        have hctl : loopControl cfg (some M) (count + 1) sched =
            .next (sched + d) := by
          unfold loopControl
          rw [if_neg hnotfalse, if_neg hcond, hdelta, he]
        obtain ⟨st', tr, heq, hlen⟩ := ih (count + 1) (sched + d) _ hmax'
          (by omega) (by omega)
        simp only [hctl, heq]
        exact ⟨_, _, rfl, by simp; omega⟩
      | some e =>
        by_cases hend : sched + d > e
        · have hctl : loopControl cfg (some M) (count + 1) sched = .halt := by
            unfold loopControl
            rw [if_neg hnotfalse, if_neg hcond, hdelta, he]
            simp [hend]
          simp only [hctl]
          exact ⟨_, _, rfl, by simp; omega⟩
        · have hctl : loopControl cfg (some M) (count + 1) sched =
              .next (sched + d) := by
            unfold loopControl
            rw [if_neg hnotfalse, if_neg hcond, hdelta, he]
            simp [hend]
          obtain ⟨st', tr, heq, hlen⟩ := ih (count + 1) (sched + d) _ hmax'
            (by omega) (by omega)
          simp only [hctl, heq]
          exact ⟨_, _, rfl, by simp; omega⟩

/-! ### Claims -/

/-- C1: the claim asserts that no occurrence time of a record is ever
dispatched more than once within a task run. The code violates it: `_dispatch`
persists `last_triggered` to the database but never refreshes the in-memory
`config.last_triggered`, so after catch-up the live loop restarts from the
stale value and re-dispatches the occurrence the catch-up already delivered.
Concretely: a repeating record with interval 1 h, persisted
`lastTriggered = 0`, restarted at `now = 3600` with a 120 s window and a
resolvable channel, delivers occurrence 3600 twice — the trace is
`[(3600, 1), (3600, 1)]`, one delivery attempt each. -/
theorem catchup_then_live_duplicates_occurrence :
    runModel 2 ⟨true, some 3600, -3600, none, some 1, some 0⟩
      (fun _ => true) (fun _ => true) (fun t => t) 3600 120 =
    some (⟨some 3600, some 1, true⟩, [(3600, 1), (3600, 1)], .completed) := by
  simp [runModel, catchupTimes.eq_def, runCatchup, liveLoop, loopControl,
    dispatchStep, initState, catchupBase, schedStart, deltaTruthy]

/-- C2 counterexample: the claim says catch-up dispatches every occurrence
`t ≤ now` with `now - t ≤ lateWindow`, even when earlier occurrences fell
outside the window. With `base = 0`, interval 3600, `now = 36000`,
window 7200, the first occurrence 3600 is outside the window, so the code's
`while` loop exits immediately and dispatches nothing, although the claimed
set is `[28800, 32400, 36000]`. -/
theorem catchup_stale_base_counterexample :
    catchupTimes 0 3600 36000 7200 = [] ∧
    specMissedOccurrences 0 3600 36000 7200 = [28800, 32400, 36000] := by
  constructor
  · simp [catchupTimes.eq_def]
  · simp [specMissedOccurrences.eq_def]

/-- C2 (amended): the catch-up loop dispatches candidates `base + k×interval`
in ascending order only while both `t ≤ now` and `now - t ≤ lateWindow` hold,
stopping at the first violation. When the first occurrence `base + interval`
lies inside the window this coincides exactly with the claimed set; when it
falls outside the window, nothing is caught up, even if later occurrences lie
inside the window. -/
theorem catchup_window_stop (base d now w : Int) (hd : 0 < d) :
    (now - (base + d) ≤ w →
      catchupTimes base d now w = specMissedOccurrences base d now w) ∧
    (w < now - (base + d) → catchupTimes base d now w = []) := by
  constructor
  · exact fun hw =>
      catchup_eq_spec_of_first_in_window (now - base).toNat base d now w
        le_rfl hd hw
  · intro hw
    rw [catchupTimes, dif_neg (by omega)]

theorem catchup_window_stop_witness :
    catchupTimes 0 3600 10800 7200 = specMissedOccurrences 0 3600 10800 7200 :=
  (catchup_window_stop 0 3600 10800 7200 (by decide)).1 (by decide)

/-- C3 counterexample: the claim says the catch-up sequence for `base = 0`,
interval 1 h, `now = 10800`, window 7200 is `[3600, 7200]`, with 10800 not
part of it. The code's loop condition `next_time <= now` is inclusive, so
10800 is dispatched as well. -/
theorem catchup_three_hours_counterexample :
    catchupTimes 0 3600 10800 7200 ≠ [3600, 7200] := by
  simp [catchupTimes.eq_def]

/-- C3 (amended): for `base = T0`, interval 1 h, `now = T0+3h`, window 2 h the
catch-up sequence is exactly `[T0+1h, T0+2h, T0+3h]`: the occurrence at
`t = now` satisfies both `t ≤ now` and `now - t = 0 ≤ window`, so it is
included. -/
theorem catchup_three_hours_includes_now :
    catchupTimes 0 3600 10800 7200 = [3600, 7200, 10800] := by
  simp [catchupTimes.eq_def]

/-- C4: `compute_next_run` for a repeating record with a valid interval and
`base = last_triggered or start_time` returns `base` when `now ≤ base`, else
`base + (floor((now-base)/delta) + 1) × delta`, and `None` when an `end_time`
is set and the candidate exceeds it; with `start = 0`, interval 1 h,
`now = 5400` (90 min) it returns 7200. -/
theorem compute_next_run_repeating_formula
    (st lt et iv : Option Int) (iu : Option Char) (d b now : Int)
    (hdelta : interval_to_delta iv iu = some d)
    (hbase : pyOr lt st = some b) :
    (now ≤ b →
      compute_next_run st true iv iu et lt now =
        match et with
        | some e => if b > e then none else some b
        | none => some b) ∧
    (b < now →
      compute_next_run st true iv iu et lt now =
        match et with
        | some e => if b + ((now - b).fdiv d + 1) * d > e then none
                    else some (b + ((now - b).fdiv d + 1) * d)
        | none => some (b + ((now - b).fdiv d + 1) * d)) ∧
    compute_next_run (some 0) true (some 1) (some 'h') none none 5400 =
      some 7200 := by
  refine ⟨fun h => ?_, fun h => ?_, by decide⟩
  · simp [compute_next_run, hdelta, hbase, if_pos h]
  · simp [compute_next_run, hdelta, hbase, if_neg (by omega : ¬ now ≤ b)]

theorem compute_next_run_repeating_formula_witness :
    compute_next_run (some 0) true (some 1) (some 'h') none none 5400 =
      some 7200 :=
  (compute_next_run_repeating_formula (some 0) none none (some 1) (some 'h')
    3600 0 5400 (by decide) (by decide)).2.2

/-- C5: a dispatch attempted at or after `scheduled_time + DELIVER_LATE` (with
a resolvable channel) delivers nothing, persists `last_triggered =
scheduled_time`, decrements `max_occurrences` when set, and deletes the record
when the decremented value is ≤ 0 — in particular a record with
`max_occurrences = 1` is deleted immediately. -/
theorem dispatch_past_deadline_skips_and_decrements
    (sok : Bool) (W when now : Int) (st : DispatchState)
    (hlate : when + W ≤ now) :
    (dispatchStep true sok W when now st).send_attempts = 0 ∧
    (dispatchStep true sok W when now st).state.last_triggered = some when ∧
    (dispatchStep true sok W when now st).state.max_occurrences =
      Option.map (fun v => v - 1) st.max_occurrences ∧
    (∀ m, st.max_occurrences = some m →
      (dispatchStep true sok W when now st).state.deleted =
        (st.deleted || decide (m - 1 ≤ 0))) ∧
    (st.max_occurrences = none →
      (dispatchStep true sok W when now st).state.deleted = st.deleted) ∧
    (st.max_occurrences = some 1 →
      (dispatchStep true sok W when now st).state.deleted = true) := by
  have hnl : ¬ now < when + W := by omega
  refine ⟨by simp [dispatchStep, hnl], by simp [dispatchStep, hnl], ?_, ?_, ?_, ?_⟩
  · cases h : st.max_occurrences <;> simp [dispatchStep, hnl, h]
  · intro m hm
    simp [dispatchStep, hnl, hm]
  · intro hm
    simp [dispatchStep, hnl, hm]
  · intro hm
    simp [dispatchStep, hnl, hm]

theorem dispatch_past_deadline_skips_and_decrements_witness :
    (dispatchStep true true 120 0 120 ⟨none, some 1, false⟩).state.deleted =
      true :=
  (dispatch_past_deadline_skips_and_decrements true 120 0 120
    ⟨none, some 1, false⟩ (by decide)).2.2.2.2.2 rfl

/-- C6 counterexample: the claim says the live loop stops as soon as the
occurrence budget is reached. A stale repeating record with
`max_occurrences = 1` (start 0, interval 1 h, dispatches running 2 h late on a
120 s window) has its budget consumed — and its record deleted — by the first
skip, which decrements `max_occurrences` to exactly 0; the Python truthiness
test `if self.config.max_occurrences and ...` then skips the stop check, so
the loop performs a second dispatch resolution (trace `[(0,0), (3600,0)]`)
before halting. -/
theorem budget_zero_truthiness_counterexample :
    runModel 2 ⟨true, some 3600, 0, none, some 1, none⟩
      (fun _ => true) (fun _ => true) (fun t => t + 7200) 0 120 =
    some (⟨some 3600, some (-1), true⟩, [(0, 0), (3600, 0)], .completed) := by
  simp [runModel, catchupTimes.eq_def, runCatchup, liveLoop, loopControl,
    dispatchStep, initState, catchupBase, schedStart, deltaTruthy]

/-- C6 (amended): after each dispatch resolution the loop stops iff the
current `max_occurrences` is nonzero and the occurrence count has reached it,
or the next time would exceed `end_time` (when `max_occurrences` has been
driven to exactly 0 by skip-path decrements, the stop test is skipped by
Python truthiness and the loop continues one extra iteration). When every
dispatch happens before its deadline — so `max_occurrences` is never
decremented — a repeating record with budget `M > 0` halts within `M`
iterations and its record is deleted. -/
theorem live_loop_stops_at_budget
    (cfg : TaskConfig) (chOk sOk : Int → Bool) (clock : Int → Int)
    (now0 W d M : Int)
    (hrep : cfg.is_repeating = true) (hdelta : cfg.interval_delta = some d)
    (hd : 0 < d) (hmax : cfg.max_occurrences = some M) (hM : 0 < M)
    (hlt : cfg.last_triggered = none) (hstart : now0 ≤ cfg.start_time)
    (hclock : ∀ t, clock t < t + W) :
    (∀ (m : Int) (count : Nat) (sched : Int), m ≠ 0 →
      loopControl cfg (some m) count sched =
        if (count : Int) ≥ m then .halt
        else match cfg.end_time with
          | some e => if sched + d > e then .halt else .next (sched + d)
          | none => .next (sched + d)) ∧
    (∃ st tr, runModel M.toNat cfg chOk sOk clock now0 W =
        some (st, tr, .completed) ∧ st.deleted = true ∧
        (tr.length : Int) ≤ M) := by
  constructor
  · intro m count sched hm
    by_cases hge : (count : Int) ≥ m
    · simp [loopControl, hrep, hdelta, hm, hge]
    · cases he : cfg.end_time <;>
        simp [loopControl, hrep, hdelta, hm, hge, he]
  · have hdt : deltaTruthy cfg.interval_delta = true := by
      rw [hdelta]; simp [deltaTruthy]; omega
    have hcb : catchupBase cfg = cfg.start_time := by
      simp [catchupBase, hlt]
    have hcat : catchupTimes (catchupBase cfg) d now0 W = [] := by
      apply catchupTimes_nil
      rw [hcb]; omega
    have hinit : (initState cfg).max_occurrences = some M := by
      simp [initState, hmax]
    obtain ⟨st', tr, heq, hlen⟩ :=
      liveLoop_reaches_budget cfg chOk sOk clock W d M hrep hdelta
        (by omega) hclock M.toNat 0 (schedStart cfg) (initState cfg)
        hinit (by omega) (by omega)
    refine ⟨{ st' with deleted := true }, tr, ?_, rfl, by simpa using hlen⟩
    have hcnd : cfg.is_repeating = true ∧ deltaTruthy cfg.interval_delta = true :=
      ⟨hrep, hdt⟩
    unfold runModel
    rw [if_pos hcnd, hdelta]
    simp only [Option.getD_some, hcat, runCatchup, heq, List.nil_append]

theorem live_loop_stops_at_budget_witness :
    ∃ st tr, runModel (2 : Int).toNat ⟨true, some 3600, 0, none, some 2, none⟩
        (fun _ => true) (fun _ => true) (fun t => t) 0 120 =
      some (st, tr, .completed) ∧ st.deleted = true ∧
      (tr.length : Int) ≤ 2 :=
  (live_loop_stops_at_budget ⟨true, some 3600, 0, none, some 2, none⟩
    (fun _ => true) (fun _ => true) (fun t => t) 0 120 3600 2
    rfl rfl (by decide) rfl (by decide) rfl (by decide)
    (fun t => by simp)).2

/-- C7: a dispatch attempted before the deadline with a resolvable channel
makes exactly one delivery attempt and, whether it succeeds or fails, persists
`last_triggered = scheduled_time` while leaving `max_occurrences` and the
deletion status unchanged (the remaining record fields are immutable and
untouched by the dispatch path). -/
theorem dispatch_on_time_single_attempt (W when now : Int)
    (st : DispatchState) (hearly : now < when + W) :
    ∀ send_ok : Bool, dispatchStep true send_ok W when now st =
      ⟨⟨some when, st.max_occurrences, st.deleted⟩, 1⟩ := by
  intro sok
  simp [dispatchStep, hearly]

theorem dispatch_on_time_single_attempt_witness :
    dispatchStep true false 120 0 0 ⟨none, some 3, false⟩ =
      ⟨⟨some 0, some 3, false⟩, 1⟩ :=
  dispatch_on_time_single_attempt 120 0 0 ⟨none, some 3, false⟩ (by decide)
    false

/-- C8: a one-off record (no `last_triggered`, no `max_occurrences`) whose
start lies more than the late window in the past is never delivered: the
single dispatch takes the skip path (zero send attempts), persists
`last_triggered = start_time`, and the record is deleted after that single
attempt. -/
theorem oneoff_stale_skipped_and_deleted
    (cfg : TaskConfig) (chOk sOk : Int → Bool) (clock : Int → Int)
    (now0 W : Int)
    (hrep : cfg.is_repeating = false) (hlt : cfg.last_triggered = none)
    (hmax : cfg.max_occurrences = none)
    (hch : chOk cfg.start_time = true)
    (hlate : cfg.start_time + W < clock cfg.start_time) :
    runModel 1 cfg chOk sOk clock now0 W =
      some (⟨some cfg.start_time, none, true⟩, [(cfg.start_time, 0)],
        .completed) := by
  have hnl : ¬ clock cfg.start_time < cfg.start_time + W := by omega
  have hsched : schedStart cfg = cfg.start_time := by
    simp [schedStart, hrep]
  simp [runModel, hrep, hsched, liveLoop, loopControl, dispatchStep,
    initState, hlt, hmax, hch, hnl]

theorem oneoff_stale_skipped_and_deleted_witness :
    runModel 1 ⟨false, none, 0, none, none, none⟩
      (fun _ => true) (fun _ => true) (fun _ => 200) 0 120 =
      some (⟨some 0, none, true⟩, [(0, 0)], .completed) :=
  oneoff_stale_skipped_and_deleted ⟨false, none, 0, none, none, none⟩
    (fun _ => true) (fun _ => true) (fun _ => 200) 0 120
    rfl rfl rfl rfl (by decide)

/-- An ASCII space character is not an ASCII digit. -/
theorem space_not_digit {x : Char} (h : isPySpace x = true) :
    isAsciiDigit x = false := by
  simp [isPySpace] at h
  simp [isAsciiDigit]
  omega

/-- A character whose lower-casing is one of the unit letters is neither a
digit nor a space. -/
theorem unit_letter_classes {c : Char} (h : pyLower c ∈ unitLetters) :
    isAsciiDigit c = false ∧ isPySpace c = false := by
  unfold pyLower at h
  by_cases hc : 65 ≤ c.toNat ∧ c.toNat ≤ 90
  · constructor
    · simp [isAsciiDigit]; omega
    · simp [isPySpace]; omega
  · rw [if_neg hc] at h
    simp [unitLetters] at h
    rcases h with h | h | h | h | h <;> subst h <;> exact ⟨by decide, by decide⟩

/-- `takeWhile`/`dropWhile` split an append at the boundary where the
predicate first fails. -/
theorem splitRun (p : Char → Bool) (r : List Char)
    (h2 : ∀ y, r.head? = some y → p y = false) :
    ∀ l : List Char, (∀ x ∈ l, p x = true) →
      (l ++ r).takeWhile p = l ∧ (l ++ r).dropWhile p = r := by
  intro l
  induction l with
  | nil =>
    intro _
    cases r with
    | nil => simp
    | cons y ys =>
      have hy := h2 y rfl
      simp [List.takeWhile_cons, List.dropWhile_cons, hy]
  | cons a l ih =>
    intro h1
    have ha := h1 a (by simp)
    have ih' := ih (fun x hx => h1 x (by simp [hx]))
    simp [List.takeWhile_cons, List.dropWhile_cons, ha, ih'.1, ih'.2]

/-- C9 counterexample: the claim says `parse` returns invalid for zero and
accepts only unit tokens from {s/sec/second(s), …, w/week(s)}. The code
accepts `"0m"` (returning value 0 — only the separate `validate_interval`
rejects it) and accepts the cross-matched token `"5hay"` (unit letter `h`
followed by the `ay` suffix of `day`), because the suffix alternation of the
pattern is not tied to the unit letter. -/
theorem parse_interval_counterexample :
    parse_interval "0m".toList = some (0, 'm') ∧
    parse_interval "5hay".toList = some (5, 'h') := by
  constructor <;> decide

/-- C9 (amended): `parse_interval` rejects negative and non-numeric values but
accepts zero (returning value 0, which `validate_interval` then rejects);
it accepts `"30m"`, `"2h"`, `"1w"` (case-insensitively, e.g. `"2H"`); and it
accepts exactly the strings consisting of an integer, optional whitespace
(which may include newlines), a unit letter in {s,m,h,d,w}, an optional
suffix from {ec, econd, in, inute, our, ay, eek, k} with an optional trailing
`s` — the suffix need not match the unit letter, so tokens like `"1wk"` are
also accepted — and optionally one final newline (Python `$` matches before a
trailing newline, so `"30m\n"` is accepted but `"30m\n\n"` is not) —
rejecting anything else. -/
theorem parse_interval_language :
    (∀ s : List Char, (parse_interval s).isSome = true ↔ regexLang s) ∧
    parse_interval "30m".toList = some (30, 'm') ∧
    parse_interval "2h".toList = some (2, 'h') ∧
    parse_interval "1w".toList = some (1, 'w') ∧
    parse_interval "2H".toList = some (2, 'h') ∧
    parse_interval "1wk".toList = some (1, 'w') ∧
    parse_interval "0m".toList = some (0, 'm') ∧
    validate_interval 0 'm' = false ∧
    parse_interval "-5m".toList = none ∧
    parse_interval "abc".toList = none ∧
    parse_interval "".toList = none ∧
    parse_interval "5x".toList = none ∧
    parse_interval "30m\n".toList = some (30, 'm') ∧
    parse_interval "30mins\n".toList = some (30, 'm') ∧
    parse_interval "30\nm".toList = some (30, 'm') ∧
    parse_interval "30m\n\n".toList = none ∧
    parse_interval "30m\ns".toList = none := by
  refine ⟨?_, by decide⟩
  intro s
  constructor
  · intro h
    simp only [parse_interval] at h
    split at h
    next hemp => simp at h
    next hemp =>
      split at h
      next hm => simp at h
      next c rest hm =>
        split at h
        next hcnd =>
          refine ⟨s.takeWhile isAsciiDigit,
            (s.dropWhile isAsciiDigit).takeWhile isPySpace, c, rest,
            ?_, ?_, ?_, ?_, hcnd.1, hcnd.2⟩
          · rw [← hm, List.takeWhile_append_dropWhile,
              List.takeWhile_append_dropWhile]
          · simpa using hemp
          · exact fun x hx => List.mem_takeWhile_imp hx
          · exact fun x hx => List.mem_takeWhile_imp hx
        next hcnd => simp at h
  · rintro ⟨ds, sp, c, tail, rfl, hne, hds, hsp, hc, htail⟩
    have hcls := unit_letter_classes hc
    have h1 : ∀ y, (sp ++ c :: tail).head? = some y → isAsciiDigit y = false := by
      cases sp with
      | nil =>
        intro y hy
        simp at hy
        rw [← hy]
        exact hcls.1
      | cons a as =>
        intro y hy
        simp at hy
        rw [← hy]
        exact space_not_digit (hsp a (by simp))
    have hsplit1 := splitRun isAsciiDigit (sp ++ c :: tail) h1 ds hds
    have h2 : ∀ y, (c :: tail).head? = some y → isPySpace y = false := by
      intro y hy
      simp at hy
      rw [← hy]
      exact hcls.2
    have hsplit2 := splitRun isPySpace (c :: tail) h2 sp hsp
    simp only [parse_interval, hsplit1.1, hsplit1.2, hsplit2.2]
    simp [hne, hc, htail]

theorem parse_interval_language_witness : regexLang "30m".toList :=
  (parse_interval_language.1 "30m".toList).mp (by decide)

/-- C10: when the destination channel cannot be resolved, `_dispatch` returns
without any write: no delivery attempt, `last_triggered` not updated,
`max_occurrences` not decremented and the record not deleted — even past the
deadline, since the conclusion holds for every `now`. The occurrence therefore
stays unresolved: on a later load from the unchanged `last_triggered = L`, an
occurrence `when = L + d` still inside the window is recomputed as the first
missed occurrence of the catch-up sequence. -/
theorem dispatch_unresolved_channel_no_writes
    (sok : Bool) (W when now : Int) (st : DispatchState) :
    dispatchStep false sok W when now st = ⟨st, 0⟩ ∧
    (∀ L d : Int, st.last_triggered = some L → when = L + d → 0 < d →
      when ≤ now → now - when ≤ W → when ∈ catchupTimes L d now W) := by
  constructor
  · simp [dispatchStep]
  · intro L d _hlt hw hd h1 h2
    subst hw
    rw [catchupTimes, dif_pos ⟨hd, h1, h2⟩]
    exact List.mem_cons_self _ _

theorem dispatch_unresolved_channel_no_writes_witness :
    (60 : Int) ∈ catchupTimes 0 60 60 120 :=
  (dispatch_unresolved_channel_no_writes true 120 60 60
    ⟨some 0, none, false⟩).2 0 60 rfl (by decide) (by decide) (by decide)
    (by decide)
